import Mathlib

/-!
Shallow embedding of the COLLADA loader (src/ColladaLoader.cc) used to check
the natural-language specification against the code.  Every definition below
is translated from the corresponding block of the C++ source; line numbers in
the comments refer to src/ColladaLoader.cc.
-/

namespace Collada

/-! Association lists model the std map objects of the source
(vertexIndexMap, the three duplicate maps, the inputs map).  Lookup returns
the value stored for a key; insert overwrites an existing binding, which is
the semantics of assignment through operator brackets on a std map. -/

def alistLookup {β : Type _} : List (Nat × β) → Nat → Option β
  | [], _ => none
  | (k, v) :: rest, key => if k = key then some v else alistLookup rest key

def alistInsert {β : Type _} : List (Nat × β) → Nat → β → List (Nat × β)
  | [], key, val => [(key, val)]
  | (k, v) :: rest, key, val =>
      if k = key then (k, val) :: rest else (k, v) :: alistInsert rest key val

/-! Duplicate-map construction.  LoadPositions (lines 982-1004), LoadNormals
(lines 1064-1085) and LoadTexCoords (lines 1214-1237) all run the same loop:
push the transformed value, then record the index of an earlier equal value
in the duplicates map, or else record this value as a first occurrence in the
hash set named unique. -/

def dupPassAux {α : Type _} [DecidableEq α] : List α → Nat → List (α × Nat) → List (Nat × Nat)
  | [], _, _ => []
  | x :: xs, idx, uniq =>
      match uniq.lookup x with
      | some firstIdx => (idx, firstIdx) :: dupPassAux xs (idx + 1) uniq
      | none => dupPassAux xs (idx + 1) ((x, idx) :: uniq)

/-- Duplicate map of a value sequence: maps the index of each later equal
value to the index of its first occurrence, exactly as the unique hash-set
loop of the three source loaders builds it. -/
def dupPass {α : Type _} [DecidableEq α] (vals : List α) : List (Nat × Nat) :=
  dupPassAux vals 0 []

/-! Vectors and 4x4 matrices over the rationals, for the exact parts of the
loader (positions, texcoords).  A matrix is kept as its three top rows, the
only rows the vector product of the math library reads: the product of a 4x4
matrix with a 3-vector applies the affine map (rotation part plus the fourth
column as translation). -/

structure Vec3Q where
  x : ℚ
  y : ℚ
  z : ℚ
deriving DecidableEq, Repr

structure Mat4Q where
  m00 : ℚ
  m01 : ℚ
  m02 : ℚ
  m03 : ℚ
  m10 : ℚ
  m11 : ℚ
  m12 : ℚ
  m13 : ℚ
  m20 : ℚ
  m21 : ℚ
  m22 : ℚ
  m23 : ℚ
deriving DecidableEq, Repr

def m4applyQ (m : Mat4Q) (v : Vec3Q) : Vec3Q where
  x := m.m00 * v.x + m.m01 * v.y + m.m02 * v.z + m.m03
  y := m.m10 * v.x + m.m11 * v.y + m.m12 * v.z + m.m13
  z := m.m20 * v.x + m.m21 * v.y + m.m22 * v.z + m.m23

/-- LoadPositions (lines 989-1004): each consecutive 3-tuple of the float
array is transformed by the full node transform and appended to the values. -/
def loadPositionsVals (t : Mat4Q) (input : List Vec3Q) : List Vec3Q :=
  input.map (m4applyQ t)

/-- LoadPositions duplicate map (lines 999-1003), built by the unique
hash-set loop over the transformed values. -/
def loadPositionsDup (t : Mat4Q) (input : List Vec3Q) : List (Nat × Nat) :=
  dupPass (loadPositionsVals t input)

/-! LoadTexCoords (lines 1092-1241).  After the count and stride checks the
loop at lines 1223-1228 walks the flat float array in steps of the accessor
stride, reading only the first two components of each tuple and storing
the pair of the first component and one minus the second component. -/

def texLoop (vals : List ℚ) (stride totCount : Nat) : Nat → Nat → List (ℚ × ℚ)
  | 0, _ => []
  | fuel + 1, i =>
      if i < totCount then
        (vals.getD i 0, 1 - vals.getD (i + 1) 0) ::
          texLoop vals stride totCount fuel (i + stride)
      else []

/-- LoadTexCoords value list: the loop of lines 1223-1228 starting at index
zero; the fuel argument equals the loop bound, which suffices for any
positive stride. -/
def loadTexCoordsVals (vals : List ℚ) (stride totCount : Nat) : List (ℚ × ℚ) :=
  texLoop vals stride totCount totCount 0

/-- LoadTexCoords duplicate map (lines 1230-1236). -/
def loadTexCoordsDup (vals : List ℚ) (stride totCount : Nat) : List (Nat × Nat) :=
  dupPass (loadTexCoordsVals vals stride totCount)

/-! LoadNormals (lines 1011-1089), over the reals because of the square root
in the vector normalization of the math library.  The node transform has its
translation column zeroed (Translate with the zero vector, line 1024), each
parsed 3-tuple is transformed by the result and then normalized; Normalize
of the math library divides by the length unless the length is within the
1e-6 equality tolerance of zero. -/

structure Vec3R where
  x : ℝ
  y : ℝ
  z : ℝ

structure Mat4R where
  m00 : ℝ
  m01 : ℝ
  m02 : ℝ
  m03 : ℝ
  m10 : ℝ
  m11 : ℝ
  m12 : ℝ
  m13 : ℝ
  m20 : ℝ
  m21 : ℝ
  m22 : ℝ
  m23 : ℝ

def m4applyR (m : Mat4R) (v : Vec3R) : Vec3R where
  x := m.m00 * v.x + m.m01 * v.y + m.m02 * v.z + m.m03
  y := m.m10 * v.x + m.m11 * v.y + m.m12 * v.z + m.m13
  z := m.m20 * v.x + m.m21 * v.y + m.m22 * v.z + m.m23

/-- Matrix4 Translate with the zero vector: the fourth column becomes zero
and the rotation block is kept (line 1024). -/
def m4zeroTranslate (m : Mat4R) : Mat4R :=
  { m with m03 := 0, m13 := 0, m23 := 0 }

noncomputable def vlen (v : Vec3R) : ℝ :=
  Real.sqrt (v.x * v.x + v.y * v.y + v.z * v.z)

/-- Vector3 Normalize of the math library: divide by the length unless the
length equals zero within the 1e-6 tolerance of the equal helper. -/
noncomputable def vnormalize (v : Vec3R) : Vec3R :=
  if vlen v ≤ 1 / 1000000 then v
  else { x := v.x / vlen v, y := v.y / vlen v, z := v.z / vlen v }

/-- One normal as parsed by LoadNormals lines 1071-1077: transform by the
node transform with zeroed translation, then normalize. -/
noncomputable def loadNormalOne (t : Mat4R) (v : Vec3R) : Vec3R :=
  vnormalize (m4applyR (m4zeroTranslate t) v)

/-- LoadNormals value list (lines 1069-1085). -/
noncomputable def loadNormalsVals (t : Mat4R) (input : List Vec3R) : List Vec3R :=
  input.map (loadNormalOne t)

def m4idR : Mat4R where
  m00 := 1
  m01 := 0
  m02 := 0
  m03 := 0
  m10 := 0
  m11 := 1
  m12 := 0
  m13 := 0
  m20 := 0
  m21 := 0
  m22 := 1
  m23 := 0

/-! Geometry weaver (LoadTriangles lines 1722-1997, LoadPolylist lines
1417-1719).  The payload types of positions, normals and texcoords are kept
generic: the weaver only copies them.  GeometryIndices is the per-vertex
accumulator of ColladaLoaderPrivate; fields not set by the source stay at
their default of zero and are never compared, matching the guarded use of
the unset C++ fields. -/

structure GeometryIndices where
  vertexIndex : Nat := 0
  mappedIndex : Nat := 0
  normalIndex : Nat := 0
  texcoordIndex : Nat := 0
deriving DecidableEq, Repr

structure WeaveCfg (P N T : Type) where
  offVertex : Nat := 0
  offNormal : Nat := 0
  offTexcoord : Nat := 0
  hasVertices : Bool := false
  hasNormals : Bool := false
  hasTexcoords : Bool := false
  combinedVertNorms : Bool := false
  verts : List P := []
  norms : List N := []
  texcoords : List T := []
  positionDup : List (Nat × Nat) := []
  normalDup : List (Nat × Nat) := []
  texDup : List (Nat × Nat) := []
  hasSkeleton : Bool := false
  bindShape : P → P := id
  vertWeights : Nat → List (Nat × ℚ) := fun _ => []

structure WeaveState (P N T : Type) where
  vertexIndexMap : List (Nat × List GeometryIndices) := []
  vertices : List P := []
  normals : List N := []
  texcoords : List T := []
  indices : List Nat := []
  nodeAssignments : List (Nat × Nat × ℚ) := []

/-- Remap an index through a duplicate map, the inlined pattern of both
weavers: replace the index when the map holds a binding for it. -/
def remap (dup : List (Nat × Nat)) (i : Nat) : Nat :=
  match alistLookup dup i with
  | some j => j
  | none => i

/-- Scan of the stored GeometryIndices entries for one position index
(lines 1893-1933 of LoadTriangles, 1604-1648 of LoadPolylist): the first
entry whose remapped normal index and remapped texcoord index both match
the current corner is reused, components absent from the sub-mesh counting
as equal. -/
def findReuse {P N T : Type} (cfg : WeaveCfg P N T) (values : List Nat) :
    List GeometryIndices → Option Nat
  | [] => none
  | iv :: rest =>
      let normEqual := cfg.hasNormals &&
        (iv.normalIndex == remap cfg.normalDup (values.getD cfg.offNormal 0))
      let texEqual := cfg.hasTexcoords &&
        (iv.texcoordIndex == remap cfg.texDup (values.getD cfg.offTexcoord 0))
      if (!cfg.hasNormals || normEqual) && (!cfg.hasTexcoords || texEqual) then
        some iv.mappedIndex
      else findReuse cfg values rest

/-- GeometryIndices record built for a corner that emits a new output vertex
(lines 1941-1983 of LoadTriangles and 1656-1703 of LoadPolylist): each field
is set only when its component exists in this sub-mesh. -/
def cornerInput {P N T : Type} (cfg : WeaveCfg P N T) (st : WeaveState P N T)
    (daeVertIndex : Nat) (values : List Nat) : GeometryIndices :=
  let i0 : GeometryIndices := {}
  let i1 := if cfg.hasVertices then
      { i0 with vertexIndex := daeVertIndex, mappedIndex := st.vertices.length }
    else i0
  let i2 := if cfg.hasNormals then
      { i1 with normalIndex := remap cfg.normalDup (values.getD cfg.offNormal 0) }
    else i1
  if cfg.hasTexcoords then
    { i2 with texcoordIndex := remap cfg.texDup (values.getD cfg.offTexcoord 0) }
  else i2

/-- The addIndex branch of LoadTriangles (lines 1939-1992): append the
position, the index of the new vertex, the combined or explicit normal, the
texcoord, the node assignments of a skeleton mesh, and store the new
GeometryIndices vector under the position index, replacing any previous
binding.  The skeleton branch of this path reads the weight list through the
values array indexed by the position index, as the source does at lines
1954-1957. -/
def addCornerTri {P N T : Type} [Inhabited P] [Inhabited N] [Inhabited T]
    (cfg : WeaveCfg P N T) (st : WeaveState P N T)
    (daeVertIndex : Nat) (values : List Nat) : WeaveState P N T :=
  let input := cornerInput cfg st daeVertIndex values
  let st1 := if cfg.hasVertices then
      let newVertIndex := st.vertices.length
      { st with
        vertices := st.vertices ++ [cfg.verts.getD daeVertIndex default]
        indices := st.indices ++ [newVertIndex]
        normals := if cfg.combinedVertNorms then
            st.normals ++ [cfg.norms.getD daeVertIndex default]
          else st.normals
        nodeAssignments := if cfg.hasSkeleton then
            st.nodeAssignments ++
              (cfg.vertWeights (values.getD daeVertIndex 0)).map
                (fun nw => (newVertIndex, nw.1, nw.2))
          else st.nodeAssignments }
    else st
  let st2 := if cfg.hasNormals then
      { st1 with normals := st1.normals ++
          [cfg.norms.getD (remap cfg.normalDup (values.getD cfg.offNormal 0)) default] }
    else st1
  let st3 := if cfg.hasTexcoords then
      { st2 with texcoords := st2.texcoords ++
          [cfg.texcoords.getD (remap cfg.texDup (values.getD cfg.offTexcoord 0)) default] }
    else st2
  if cfg.hasVertices then
    { st3 with vertexIndexMap := alistInsert st3.vertexIndexMap daeVertIndex [input] }
  else st3

/-- The addIndex branch of LoadPolylist (lines 1654-1711).  It differs from
the triangles path in the skeleton branch only: the new vertex is multiplied
in place by the bind-shape matrix (lines 1666-1667) and the weight list is
indexed by the position index itself (lines 1670-1673). -/
def addCornerPoly {P N T : Type} [Inhabited P] [Inhabited N] [Inhabited T]
    (cfg : WeaveCfg P N T) (st : WeaveState P N T)
    (daeVertIndex : Nat) (values : List Nat) : WeaveState P N T :=
  let input := cornerInput cfg st daeVertIndex values
  let st1 := if cfg.hasVertices then
      let newVertIndex := st.vertices.length
      let newVert := cfg.verts.getD daeVertIndex default
      let newVert := if cfg.hasSkeleton then cfg.bindShape newVert else newVert
      { st with
        vertices := st.vertices ++ [newVert]
        indices := st.indices ++ [newVertIndex]
        normals := if cfg.combinedVertNorms then
            st.normals ++ [cfg.norms.getD daeVertIndex default]
          else st.normals
        nodeAssignments := if cfg.hasSkeleton then
            st.nodeAssignments ++
              (cfg.vertWeights daeVertIndex).map
                (fun nw => (newVertIndex, nw.1, nw.2))
          else st.nodeAssignments }
    else st
  let st2 := if cfg.hasNormals then
      { st1 with normals := st1.normals ++
          [cfg.norms.getD (remap cfg.normalDup (values.getD cfg.offNormal 0)) default] }
    else st1
  let st3 := if cfg.hasTexcoords then
      { st2 with texcoords := st2.texcoords ++
          [cfg.texcoords.getD (remap cfg.texDup (values.getD cfg.offTexcoord 0)) default] }
    else st2
  if cfg.hasVertices then
    { st3 with vertexIndexMap := alistInsert st3.vertexIndexMap daeVertIndex [input] }
  else st3

/-- One corner of the triangles weaver (lines 1867-1992): remap the position
index through the duplicate map, then reuse a stored output vertex whose
remapped normal and texcoord indices match, or emit a new one. -/
def weaveCornerTri {P N T : Type} [Inhabited P] [Inhabited N] [Inhabited T]
    (cfg : WeaveCfg P N T) (st : WeaveState P N T) (values : List Nat) :
    WeaveState P N T :=
  if cfg.hasVertices then
    let daeVertIndex := remap cfg.positionDup (values.getD cfg.offVertex 0)
    match alistLookup st.vertexIndexMap daeVertIndex with
    | none => addCornerTri cfg st daeVertIndex values
    | some ivs =>
        match findReuse cfg values ivs with
        | some reuseIndex => { st with indices := st.indices ++ [reuseIndex] }
        | none => addCornerTri cfg st daeVertIndex values
  else addCornerTri cfg st 0 values

/-- One corner of the polylist weaver (lines 1577-1712), identical control
flow with the polylist add branch. -/
def weaveCornerPoly {P N T : Type} [Inhabited P] [Inhabited N] [Inhabited T]
    (cfg : WeaveCfg P N T) (st : WeaveState P N T) (values : List Nat) :
    WeaveState P N T :=
  if cfg.hasVertices then
    let daeVertIndex := remap cfg.positionDup (values.getD cfg.offVertex 0)
    match alistLookup st.vertexIndexMap daeVertIndex with
    | none => addCornerPoly cfg st daeVertIndex values
    | some ivs =>
        match findReuse cfg values ivs with
        | some reuseIndex => { st with indices := st.indices ++ [reuseIndex] }
        | none => addCornerPoly cfg st daeVertIndex values
  else addCornerPoly cfg st 0 values

/-- Index stream loop of LoadTriangles (lines 1862-1993): consume the parsed
integers of the p element in groups of the input tuple width.  The fuel
argument bounds the iteration count; with a positive width each step drops
at least one element, so the length of the stream is enough fuel.  A zero
width never occurs with any input element present. -/
def weaveTrianglesGo {P N T : Type} [Inhabited P] [Inhabited N] [Inhabited T]
    (cfg : WeaveCfg P N T) (w : Nat) :
    Nat → List Nat → WeaveState P N T → WeaveState P N T
  | 0, _, st => st
  | fuel + 1, xs, st =>
      if w = 0 ∨ xs = [] then st
      else weaveTrianglesGo cfg w fuel (xs.drop w) (weaveCornerTri cfg st (xs.take w))

def weaveTriangles {P N T : Type} [Inhabited P] [Inhabited N] [Inhabited T]
    (cfg : WeaveCfg P N T) (w : Nat) (p : List Nat) : WeaveState P N T :=
  weaveTrianglesGo cfg w p.length p {}

/-- Fan triangulation of one polylist polygon (lines 1546-1561): for each
final corner k from two up to the vertex count, the corners at offsets zero,
k minus one and k of the polygon, each scaled by the tuple width; the
returned numbers are positions into the flat p stream. -/
def triFanStarts (w n base : Nat) : List Nat :=
  ((List.range n).drop 2).flatMap (fun k => [base, base + (k - 1) * w, base + k * w])

/-- Polygon walk of LoadPolylist (lines 1541-1544): the read position
advances by the tuple width times the previous vertex count between
polygons. -/
def polyCornerStartsGo (w : Nat) : List Nat → Nat → List Nat
  | [], _ => []
  | n :: rest, base =>
      triFanStarts w n base ++ polyCornerStartsGo w rest (base + w * n)

def polyCornerStarts (w : Nat) (vcounts : List Nat) : List Nat :=
  polyCornerStartsGo w vcounts 0

/-- The corner tuple read at one start position: the w integers of the p
stream from that position (lines 1563-1574). -/
def cornerAt (w : Nat) (p : List Nat) (base : Nat) : List Nat :=
  (p.drop base).take w

def weavePolylist {P N T : Type} [Inhabited P] [Inhabited N] [Inhabited T]
    (cfg : WeaveCfg P N T) (w : Nat) (vcounts : List Nat) (p : List Nat) :
    WeaveState P N T :=
  (polyCornerStarts w vcounts).foldl
    (fun st base => weaveCornerPoly cfg st (cornerAt w p base)) {}

/-! Skin binder (LoadController, lines 345-513).  The vertex-weight loop at
lines 500-509 appends, for vertex i, vcount i records; each reads the joint
name through the v stream at the running cursor plus the JOINT offset and
the weight at the cursor plus the WEIGHT offset, then advances the cursor by
the sum of the two offsets plus one. -/

def attachOne (joints : List String) (weights : List ℚ) (v : List Nat)
    (jOff wOff i vIndex : Nat) : Nat × String × ℚ :=
  (i, joints.getD (v.getD (vIndex + jOff) 0) "",
    weights.getD (v.getD (vIndex + wOff) 0) 0)

def attachInner (joints : List String) (weights : List ℚ) (v : List Nat)
    (jOff wOff i : Nat) : Nat → Nat → List (Nat × String × ℚ)
  | 0, _ => []
  | c + 1, vIndex =>
      attachOne joints weights v jOff wOff i vIndex ::
        attachInner joints weights v jOff wOff i c (vIndex + (jOff + wOff + 1))

def attachLoop (joints : List String) (weights : List ℚ) (v : List Nat)
    (jOff wOff : Nat) : List Nat → Nat → Nat → List (Nat × String × ℚ)
  | [], _, _ => []
  | c :: cs, i, vIndex =>
      attachInner joints weights v jOff wOff i c vIndex ++
        attachLoop joints weights v jOff wOff cs (i + 1)
          (vIndex + c * (jOff + wOff + 1))

/-- The per-vertex attachment records produced by the vertex-weight loop of
LoadController, in emission order. -/
def skinAttachments (joints : List String) (weights : List ℚ)
    (vCount v : List Nat) (jOff wOff : Nat) : List (Nat × String × ℚ) :=
  attachLoop joints weights v jOff wOff vCount 0 0

/-- The closed form the specification describes for the skin binder: vertex
i receives records r below vcount i, the r-th drawn at the cursor equal to
the record width times the count of all earlier records. -/
def skinAttachmentsSpec (joints : List String) (weights : List ℚ)
    (vCount v : List Nat) (jOff wOff : Nat) : List (Nat × String × ℚ) :=
  (List.range vCount.length).flatMap (fun i =>
    (List.range (vCount.getD i 0)).map (fun r =>
      attachOne joints weights v jOff wOff i
        (((vCount.take i).sum + r) * (jOff + wOff + 1))))

/-! LoadAnimations (lines 516-530).  When the first animation child itself
holds a nested animation element, the source iterates the children in a
while loop whose advance expression discards its own result, so the loop
variable never changes.  The loop below carries the invocation trace of
LoadAnimationSet and a flag telling whether the loop exited; the fuel
argument bounds the number of iterations simulated. -/

structure AnimChild where
  name : String
  hasNestedAnimation : Bool
deriving DecidableEq, Repr

def loadAnimationsLoop (children : List AnimChild) (idx : Nat) :
    Nat → List String → List String × Bool
  | 0, acc => (acc, false)
  | fuel + 1, acc =>
      match children.get? idx with
      | none => (acc, true)
      | some c => loadAnimationsLoop children idx fuel (acc ++ [c.name])

/-- LoadAnimations: the first animation child is inspected for a nested
animation element; in the nested case the while loop of lines 522-526 runs
with its cursor stuck at the first child, otherwise the whole library
element is one animation set.  The result is the LoadAnimationSet call
trace and whether the call returned within the given fuel; none models the
null dereference when no animation child exists. -/
def loadAnimations (libName : String) (children : List AnimChild)
    (fuel : Nat) : Option (List String × Bool) :=
  match children.get? 0 with
  | none => none
  | some c0 =>
      if c0.hasNestedAnimation then some (loadAnimationsLoop children 0 fuel [])
      else some ([libName], true)

/-! SetSkeletonNodeTransform (lines 724-813).  Raw transforms are pushed for
the matrix child, or else for the translate child, each rotate child and the
scale child in document order.  On the scale branch the source reads the SID
attribute from the matrix child of the node (line 802), which is absent on
that branch, a null-pointer dereference modelled as an error result. -/

inductive NodeTransformType where
  | translate
  | rotate
  | scale
  | matrix
deriving DecidableEq, Repr

structure RawTransform where
  kind : NodeTransformType
  sid : Option String
  values : List ℚ
deriving DecidableEq, Repr

structure SidElem where
  sid : Option String
  vals : List ℚ
deriving DecidableEq, Repr

structure NodeElem where
  matrix : Option SidElem
  translate : Option SidElem
  rotations : List SidElem
  scale : Option SidElem
deriving DecidableEq, Repr

def nullMatrixSidRead : String :=
  "null dereference: SID read from the absent matrix child"

/-- Raw-transform list pushed by SetSkeletonNodeTransform.  The scale branch
mirrors line 802 of the source: it consults the matrix child for the SID
even though that child cannot exist on this branch. -/
def setSkeletonRawTransforms (elem : NodeElem) : Except String (List RawTransform) :=
  match elem.matrix with
  | some m => Except.ok [⟨NodeTransformType.matrix, m.sid, m.vals⟩]
  | none =>
      let ts := match elem.translate with
        | some t => [(⟨NodeTransformType.translate, t.sid, t.vals⟩ : RawTransform)]
        | none => []
      let rs := elem.rotations.map
        (fun r => (⟨NodeTransformType.rotate, r.sid, r.vals⟩ : RawTransform))
      match elem.scale with
      | none => Except.ok (ts ++ rs)
      | some s =>
          match elem.matrix with
          | none => Except.error nullMatrixSidRead
          | some m => Except.ok (ts ++ rs ++ [⟨NodeTransformType.scale, m.sid, s.vals⟩])

/-- The raw transform the specification describes for a scale element: kind
scale, the source values of the scale element, and the SID of the scale
element itself. -/
def scaleRawPerSpec (s : SidElem) : RawTransform :=
  ⟨NodeTransformType.scale, s.sid, s.vals⟩

/-! Load (lines 99-152).  The version attribute is compared against 1.4.0
and 1.4.1; a mismatch of both emits one error line and control falls
through: the scene is loaded and the mesh returned regardless. -/

def versionBad (v : String) : Bool :=
  (v != "1.4.0") && (v != "1.4.1")

def versionErrMsg : String :=
  "Invalid collada file. Must be version 1.4.0 or 1.4.1"

structure ColladaDoc (P N T : Type) where
  version : String
  triangleSets : List (WeaveCfg P N T × Nat × List Nat)

structure LoadOutcome (P N T : Type) where
  errors : List String
  subMeshes : List (WeaveState P N T)

/-- Load: emit the version error when the version differs from both accepted
values, then proceed to build every sub-mesh of the scene. -/
def colladaLoad {P N T : Type} [Inhabited P] [Inhabited N] [Inhabited T]
    (doc : ColladaDoc P N T) : LoadOutcome P N T where
  errors := if versionBad doc.version then [versionErrMsg] else []
  subMeshes := doc.triangleSets.map (fun g => weaveTriangles g.1 g.2.1 g.2.2)

/-! Input parsing of LoadTriangles (lines 1775-1812).  Each input element is
dispatched on its semantic; a TEXCOORD input is honored only while no
texcoord set has been loaded yet, otherwise it falls to the unsupported
branch, which assigns its offset to a fresh slot of the inputs map and
warns.  The source environment maps source ids to their parsed data. -/

structure TriInput where
  semantic : String
  source : String
  offset : Nat
deriving DecidableEq, Repr

structure SourceEnv (P N T : Type) where
  vertPos : String → List P
  vertNorm : String → List N
  vertPosDup : String → List (Nat × Nat)
  vertNormDup : String → List (Nat × Nat)
  normVals : String → List N
  normDupOf : String → List (Nat × Nat)
  texVals : String → List T
  texDupOf : String → List (Nat × Nat)

structure TriInputState (P N T : Type) where
  hasVertices : Bool := false
  hasNormals : Bool := false
  hasTexcoords : Bool := false
  combinedVertNorms : Bool := false
  inputs : List (Nat × Nat) := []
  otherSemantics : Nat := 3
  offsetSize : Nat := 0
  verts : List P := []
  norms : List N := []
  texcoords : List T := []
  positionDup : List (Nat × Nat) := []
  normalDup : List (Nat × Nat) := []
  texDupMap : List (Nat × Nat) := []
  warnings : List String := []

def unsupportedWarnTri (semantic : String) : String :=
  "Triangle input semantic: " ++ semantic ++ " is currently not supported"

def processTriInput {P N T : Type} (env : SourceEnv P N T)
    (st : TriInputState P N T) (inp : TriInput) : TriInputState P N T :=
  let stepped :=
    if inp.semantic == "VERTEX" then
      let newNorms := env.vertNorm inp.source
      { st with
        verts := st.verts ++ env.vertPos inp.source
        norms := st.norms ++ newNorms
        positionDup := st.positionDup ++ env.vertPosDup inp.source
        normalDup := st.normalDup ++ env.vertNormDup inp.source
        combinedVertNorms := if newNorms.length > 0 then true else st.combinedVertNorms
        inputs := alistInsert st.inputs 0 inp.offset
        hasVertices := true }
    else if inp.semantic == "NORMAL" then
      { st with
        norms := st.norms ++ env.normVals inp.source
        normalDup := st.normalDup ++ env.normDupOf inp.source
        combinedVertNorms := false
        inputs := alistInsert st.inputs 1 inp.offset
        hasNormals := true }
    else if inp.semantic == "TEXCOORD" && !st.hasTexcoords then
      { st with
        texcoords := st.texcoords ++ env.texVals inp.source
        texDupMap := st.texDupMap ++ env.texDupOf inp.source
        inputs := alistInsert st.inputs 2 inp.offset
        hasTexcoords := true }
    else
      { st with
        inputs := alistInsert st.inputs st.otherSemantics inp.offset
        otherSemantics := st.otherSemantics + 1
        warnings := st.warnings ++ [unsupportedWarnTri inp.semantic] }
  { stepped with offsetSize := stepped.offsetSize + 1 }

def processTriInputs {P N T : Type} (env : SourceEnv P N T)
    (st : TriInputState P N T) (l : List TriInput) : TriInputState P N T :=
  l.foldl (processTriInput env) st

instance : Inhabited Vec3R := ⟨⟨0, 0, 0⟩⟩

/-! Concrete fixtures used by single claims. -/

/-- A triangles sub-mesh with one VERTEX input at offset zero and one NORMAL
input at offset one, three positions and two normals, nothing duplicated. -/
def c1Cfg : WeaveCfg Nat Nat Nat where
  offVertex := 0
  offNormal := 1
  hasVertices := true
  hasNormals := true
  verts := [100, 101, 102]
  norms := [200, 201]

/-- A polylist with a single VERTEX input and four distinct positions. -/
def quadCfg : WeaveCfg Nat Nat Nat where
  offVertex := 0
  hasVertices := true
  verts := [10, 11, 12, 13]

/-- A triangles sub-mesh whose normal list comes from the normal loader run
on the zero input normal under the identity transform. -/
noncomputable def c6Cfg : WeaveCfg Nat Vec3R Nat where
  offVertex := 0
  offNormal := 1
  hasVertices := true
  hasNormals := true
  verts := [0]
  norms := loadNormalsVals m4idR [⟨0, 0, 0⟩]

/-- A node element with no matrix child, one translate child and one scale
child that carries its own SID attribute. -/
def c8Elem : NodeElem where
  matrix := none
  translate := some ⟨some "t", [1, 2, 3]⟩
  rotations := []
  scale := some ⟨some "sc", [2, 2, 2]⟩

/-- A source environment whose texcoord sources hold one fixed pair. -/
def c10Env : SourceEnv Nat Nat Nat where
  vertPos := fun _ => []
  vertNorm := fun _ => []
  vertPosDup := fun _ => []
  vertNormDup := fun _ => []
  normVals := fun _ => []
  normDupOf := fun _ => []
  texVals := fun _ => [7]
  texDupOf := fun _ => []

/-- An input-parsing state in which one texcoord set was already honored. -/
def c10St : TriInputState Nat Nat Nat :=
  { hasTexcoords := true, texcoords := [9], inputs := [(0, 0), (2, 1)], offsetSize := 2 }

theorem alistLookup_insert {β : Type _} (m : List (Nat × β)) (k : Nat) (v : β) :
    alistLookup (alistInsert m k v) k = some v := by
  induction m with
  | nil => simp [alistInsert, alistLookup]
  | cons hd tl ih =>
      obtain ⟨k', v'⟩ := hd
      by_cases h : k' = k
      · simp [alistInsert, alistLookup, h]
      · simp [alistInsert, alistLookup, h, ih]

theorem lookup_mem {α : Type _} [DecidableEq α] {uniq : List (α × Nat)} {x : α}
    {j : Nat} (h : uniq.lookup x = some j) : (x, j) ∈ uniq := by
  induction uniq with
  | nil => simp [List.lookup] at h
  | cons hd tl ih =>
      obtain ⟨k, v⟩ := hd
      by_cases hk : x = k
      · subst hk
        simp [List.lookup] at h
        subst h
        exact List.mem_cons_self _ _
      · have hb : (x == k) = false := beq_false_of_ne hk
        simp [List.lookup, hb] at h
        exact List.mem_cons_of_mem _ (ih h)

theorem dupPassAux_sound {α : Type _} [DecidableEq α] (full : List α) :
    ∀ (xs : List α) (idx : Nat) (uniq : List (α × Nat)),
      xs = full.drop idx →
      (∀ p ∈ uniq, p.2 < idx ∧ full.get? p.2 = some p.1) →
      ∀ i j, (i, j) ∈ dupPassAux xs idx uniq →
        j < i ∧ full.get? i = full.get? j ∧ full.get? i ≠ none := by
  intro xs
  induction xs with
  | nil => intro idx uniq _ _ i j h; simp [dupPassAux] at h
  | cons x rest ih =>
      intro idx uniq hdrop huniq i j hmem
      have hx : full.get? idx = some x := by
        rw [List.get?_eq_getElem?]
        have : (full.drop idx).head? = some x := by rw [← hdrop]; rfl
        rwa [List.head?_drop] at this
      have hrest : rest = full.drop (idx + 1) := by
        have h1 : (full.drop idx).tail = full.drop (idx + 1) := by
          rw [List.tail_drop]
        rw [← h1, ← hdrop]
        rfl
      simp only [dupPassAux] at hmem
      cases hlk : uniq.lookup x with
      | some firstIdx =>
          rw [hlk] at hmem
          rcases List.mem_cons.mp hmem with heq | htl
          · have hi : i = idx := congrArg Prod.fst heq
            have hj : j = firstIdx := congrArg Prod.snd heq
            subst hi; subst hj
            have hfirst := huniq (x, j) (lookup_mem hlk)
            refine ⟨hfirst.1, ?_, ?_⟩
            · rw [hx, hfirst.2]
            · rw [hx]; simp
          · exact ih (idx + 1) uniq hrest
              (fun p hp => ⟨Nat.lt_succ_of_lt (huniq p hp).1, (huniq p hp).2⟩) i j htl
      | none =>
          rw [hlk] at hmem
          refine ih (idx + 1) ((x, idx) :: uniq) hrest ?_ i j hmem
          intro p hp
          rcases List.mem_cons.mp hp with heq | htl
          · subst heq; exact ⟨Nat.lt_succ_self idx, hx⟩
          · exact ⟨Nat.lt_succ_of_lt (huniq p htl).1, (huniq p htl).2⟩

theorem dupPassAux_nodup {α : Type _} [DecidableEq α] (full : List α)
    (hnd : full.Nodup) :
    ∀ (xs : List α) (idx : Nat) (uniq : List (α × Nat)),
      xs = full.drop idx →
      (∀ p ∈ uniq, p.2 < idx ∧ full.get? p.2 = some p.1) →
      dupPassAux xs idx uniq = [] := by
  intro xs
  induction xs with
  | nil => intro idx uniq _ _; simp [dupPassAux]
  | cons x rest ih =>
      intro idx uniq hdrop huniq
      have hx : full.get? idx = some x := by
        rw [List.get?_eq_getElem?]
        have : (full.drop idx).head? = some x := by rw [← hdrop]; rfl
        rwa [List.head?_drop] at this
      have hrest : rest = full.drop (idx + 1) := by
        have h1 : (full.drop idx).tail = full.drop (idx + 1) := by
          rw [List.tail_drop]
        rw [← h1, ← hdrop]
        rfl
      simp only [dupPassAux]
      cases hlk : uniq.lookup x with
      | some firstIdx =>
          exfalso
          have hfirst := huniq (x, firstIdx) (lookup_mem hlk)
          have hne : firstIdx ≠ idx := Nat.ne_of_lt hfirst.1
          have hlt : firstIdx < full.length := (List.get?_eq_some.mp hfirst.2).1
          have heq2 : full.get? firstIdx = full.get? idx := by rw [hfirst.2, hx]
          exact hne (List.get?_inj hlt hnd heq2)
      | none =>
          refine ih (idx + 1) ((x, idx) :: uniq) hrest ?_
          intro p hp
          rcases List.mem_cons.mp hp with heq | htl
          · subst heq; exact ⟨Nat.lt_succ_self idx, hx⟩
          · exact ⟨Nat.lt_succ_of_lt (huniq p htl).1, (huniq p htl).2⟩

/-- C5: for every source parsed into a values and duplicates pair, every key
i of the duplicate map satisfies duplicates i smaller than i with the value
at i equal to the value at duplicates i, no first occurrence of a value is a
key, and a source without duplicate values yields an empty duplicate map. -/
theorem duplicateMapInvariant {α : Type _} [DecidableEq α] (vals : List α) :
    (∀ i j, (i, j) ∈ dupPass vals →
      j < i ∧ vals.get? i = vals.get? j ∧ ∃ k, k < i ∧ vals.get? k = vals.get? i) ∧
    (vals.Nodup → dupPass vals = []) := by
  constructor
  · intro i j hmem
    have h := dupPassAux_sound vals vals 0 [] (by simp) (by simp) i j hmem
    exact ⟨h.1, h.2.1, j, h.1, h.2.1.symm⟩
  · intro hnd
    exact dupPassAux_nodup vals hnd vals 0 [] (by simp) (by simp)

/-- Witness for C5 at the value list with one repeat and at a list with no
repeats. -/
theorem duplicateMapInvariant_witness :
    (0 < 2 ∧ ([10, 20, 10] : List Nat).get? 2 = ([10, 20, 10] : List Nat).get? 0 ∧
      ∃ k, k < 2 ∧ ([10, 20, 10] : List Nat).get? k = ([10, 20, 10] : List Nat).get? 2) ∧
    dupPass ([1, 2, 3] : List Nat) = [] :=
  ⟨(duplicateMapInvariant [10, 20, 10]).1 2 0 (by decide),
   (duplicateMapInvariant [1, 2, 3]).2 (by decide)⟩

/-- C8: on the no-matrix branch, the scale raw transform is supposed to
carry the SID of the scale element itself; the source instead reads the SID
attribute through the absent matrix child, a null dereference, so the model
returns an error on a node whose scale child has its own SID. -/
theorem scaleSidNullDeref :
    setSkeletonRawTransforms c8Elem = Except.error nullMatrixSidRead ∧
    scaleRawPerSpec ⟨some "sc", [2, 2, 2]⟩ =
      { kind := NodeTransformType.scale, sid := some "sc", values := [2, 2, 2] } :=
  ⟨rfl, rfl⟩

theorem loadAnimationsNested_loop :
    ∀ (fuel : Nat) (acc : List String),
      loadAnimationsLoop [⟨"animA", true⟩, ⟨"animB", false⟩] 0 fuel acc =
        (acc ++ List.replicate fuel "animA", false) := by
  intro fuel
  induction fuel with
  | zero => intro acc; simp [loadAnimationsLoop]
  | succ f ih =>
      intro acc
      rw [loadAnimationsLoop]
      simp only [List.get?]
      rw [ih]
      simp [List.replicate_succ]

/-- C2: on a library with nested animation groups the iteration never
terminates, because the advance expression of the while loop discards its
result; for every fuel bound the loop is still running and has invoked
LoadAnimationSet fuel times, always on the first animation child. -/
theorem loadAnimationsNestedStuck :
    ∀ fuel : Nat,
      loadAnimations "lib" [⟨"animA", true⟩, ⟨"animB", false⟩] fuel =
        some (List.replicate fuel "animA", false) := by
  intro fuel
  rw [loadAnimations]
  simp only [List.get?]
  rw [if_pos trivial, loadAnimationsNested_loop fuel []]
  simp

/-- C9: the version error is emitted exactly when the version attribute
differs from both accepted values, and the scene is loaded into sub-meshes
regardless of the version check. -/
theorem versionCheckProceeds {P N T : Type} [Inhabited P] [Inhabited N]
    [Inhabited T] (doc : ColladaDoc P N T) :
    ((colladaLoad doc).errors = [versionErrMsg] ↔
      doc.version ≠ "1.4.0" ∧ doc.version ≠ "1.4.1") ∧
    (colladaLoad doc).subMeshes =
      doc.triangleSets.map (fun g => weaveTriangles g.1 g.2.1 g.2.2) := by
  refine ⟨?_, rfl⟩
  by_cases hv : versionBad doc.version = true
  · have hprop : doc.version ≠ "1.4.0" ∧ doc.version ≠ "1.4.1" := by
      simpa [versionBad] using hv
    simp [colladaLoad, hv, hprop]
  · have hv' : versionBad doc.version = false := by
      simpa using hv
    have hprop : ¬(doc.version ≠ "1.4.0" ∧ doc.version ≠ "1.4.1") := by
      intro hc
      exact hv (by simp [versionBad, hc.1, hc.2])
    simp [colladaLoad, hv', hprop]

theorem texLoop_closed (vals : List ℚ) (stride : Nat) (hs : 1 ≤ stride) :
    ∀ (n base fuel : Nat), n * stride ≤ fuel →
      texLoop vals stride (base + n * stride) fuel base =
        (List.range n).map (fun k =>
          (vals.getD (base + k * stride) 0, 1 - vals.getD (base + k * stride + 1) 0)) := by
  intro n
  induction n with
  | zero =>
      intro base fuel _
      cases fuel with
      | zero => simp [texLoop]
      | succ f => simp [texLoop]
  | succ m ih =>
      intro base fuel hfuel
      have hstep : stride ≤ (m + 1) * stride := Nat.le_mul_of_pos_left stride (Nat.succ_pos m)
      obtain ⟨f, rfl⟩ : ∃ f, fuel = f + 1 := ⟨fuel - 1, by omega⟩
      have hlt : base < base + (m + 1) * stride := by omega
      rw [texLoop, if_pos hlt]
      have harith : base + (m + 1) * stride = base + stride + m * stride := by ring
      rw [harith, ih (base + stride) f (by nlinarith)]
      rw [List.range_succ_eq_map, List.map_cons, List.map_map]
      refine congrArg₂ List.cons ?_ ?_
      · simp
      · refine List.map_congr_left (fun k _ => ?_)
        simp only [Function.comp_apply]
        have hidx : base + stride + k * stride = base + (k + 1) * stride := by
          rw [Nat.succ_mul]; omega
        rw [hidx]

/-- C7: the texcoord loader reads only the first two components of each
stride-wide tuple, storing the pair of the first component and one minus the
second; in particular the input pair of one quarter and three quarters is
stored as the pair of one quarter and one quarter. -/
theorem texcoordVFlip :
    (∀ (vals : List ℚ) (stride texCount : Nat), 1 ≤ stride →
      loadTexCoordsVals vals stride (texCount * stride) =
        (List.range texCount).map (fun k =>
          (vals.getD (k * stride) 0, 1 - vals.getD (k * stride + 1) 0))) ∧
    loadTexCoordsVals [1/4, 3/4] 2 2 = [(1/4, 1/4)] := by
  constructor
  · intro vals stride texCount hs
    have h := texLoop_closed vals stride hs texCount 0 (texCount * stride) (le_refl _)
    simpa [loadTexCoordsVals] using h
  · norm_num [loadTexCoordsVals, texLoop]

/-- Witness for C7 at stride one on a one-element array. -/
theorem texcoordVFlip_witness :
    loadTexCoordsVals ([1/2] : List ℚ) 1 (1 * 1) =
      (List.range 1).map (fun k =>
        (([(1 : ℚ)/2]).getD (k * 1) 0, 1 - ([(1 : ℚ)/2]).getD (k * 1 + 1) 0)) :=
  texcoordVFlip.1 [1/2] 1 1 (by decide)

theorem attachInner_closed (joints : List String) (weights : List ℚ)
    (v : List Nat) (jOff wOff i : Nat) :
    ∀ (c vIndex : Nat),
      attachInner joints weights v jOff wOff i c vIndex =
        (List.range c).map (fun r =>
          attachOne joints weights v jOff wOff i (vIndex + r * (jOff + wOff + 1))) := by
  intro c
  induction c with
  | zero => intro vIndex; simp [attachInner]
  | succ m ih =>
      intro vIndex
      rw [attachInner, ih]
      rw [List.range_succ_eq_map, List.map_cons, List.map_map]
      refine congrArg₂ List.cons ?_ ?_
      · simp
      · refine List.map_congr_left (fun r _ => ?_)
        simp only [Function.comp_apply]
        have hidx : vIndex + (jOff + wOff + 1) + r * (jOff + wOff + 1) =
            vIndex + (r + 1) * (jOff + wOff + 1) := by
          rw [Nat.succ_mul]; omega
        rw [hidx]

theorem attachLoop_closed (joints : List String) (weights : List ℚ)
    (v : List Nat) (jOff wOff : Nat) :
    ∀ (cs : List Nat) (i0 base : Nat),
      attachLoop joints weights v jOff wOff cs i0 base =
        (List.range cs.length).flatMap (fun i =>
          (List.range (cs.getD i 0)).map (fun r =>
            attachOne joints weights v jOff wOff (i0 + i)
              (base + ((cs.take i).sum + r) * (jOff + wOff + 1)))) := by
  intro cs
  induction cs with
  | nil => intro i0 base; simp [attachLoop]
  | cons c rest ih =>
      intro i0 base
      rw [attachLoop, attachInner_closed, ih]
      rw [List.length_cons, List.range_succ_eq_map, List.flatMap_cons, List.flatMap_map]
      refine congrArg₂ HAppend.hAppend ?_ ?_
      · simp
      · refine List.flatMap_congr (fun i _ => ?_)
        simp only [List.getD_cons_succ, List.take_succ_cons, List.sum_cons]
        refine List.map_congr_left (fun r _ => ?_)
        have harg : base + c * (jOff + wOff + 1) +
            ((rest.take i).sum + r) * (jOff + wOff + 1) =
            base + (c + ((rest.take i).sum + r)) * (jOff + wOff + 1) := by ring
        have hidx : i0 + 1 + i = i0 + (i + 1) := by omega
        rw [harg, hidx]
        have hsum : c + ((rest.take i).sum + r) = c + (rest.take i).sum + r := by omega
        rw [hsum]

/-- C3: the skin binder appends to vertex i exactly vcount i records, the
r-th reading the joint at the v entry at cursor plus the JOINT offset and
the weight at cursor plus the WEIGHT offset, the cursor advancing by the sum
of the offsets plus one per record; the concrete two-joint scenario of the
specification produces the expected four attachments. -/
theorem skinBinderRecords :
    (∀ (joints : List String) (weights : List ℚ) (vCount v : List Nat)
        (jOff wOff : Nat),
      skinAttachments joints weights vCount v jOff wOff =
        skinAttachmentsSpec joints weights vCount v jOff wOff) ∧
    skinAttachments ["j0", "j1"] [1/2, 1/4, 1/8, 1/8] [2, 2]
        [0, 0, 1, 1, 0, 2, 1, 3] 0 1 =
      [(0, "j0", 1/2), (0, "j1", 1/4), (1, "j0", 1/8), (1, "j1", 1/8)] := by
  constructor
  · intro joints weights vCount v jOff wOff
    rw [skinAttachments, attachLoop_closed]
    simp [skinAttachmentsSpec]
  · norm_num [skinAttachments, attachLoop, attachInner, attachOne]

/-- C10: in the triangles loader a TEXCOORD input that arrives when one
texcoord set was already honored is not loaded: the state keeps its texcoord
data and duplicate map, and the input is handled by the unsupported branch,
taking a fresh slot of the inputs map with its offset and emitting the
warning; the first TEXCOORD input, by contrast, loads its source. -/
theorem secondTexcoordIgnored {P N T : Type} (env : SourceEnv P N T)
    (st : TriInputState P N T) (inp : TriInput)
    (hsem : inp.semantic = "TEXCOORD") :
    (st.hasTexcoords = true →
      processTriInput env st inp =
        { st with
          inputs := alistInsert st.inputs st.otherSemantics inp.offset
          otherSemantics := st.otherSemantics + 1
          offsetSize := st.offsetSize + 1
          warnings := st.warnings ++ [unsupportedWarnTri "TEXCOORD"] }) ∧
    (st.hasTexcoords = false →
      processTriInput env st inp =
        { st with
          texcoords := st.texcoords ++ env.texVals inp.source
          texDupMap := st.texDupMap ++ env.texDupOf inp.source
          inputs := alistInsert st.inputs 2 inp.offset
          hasTexcoords := true
          offsetSize := st.offsetSize + 1 }) := by
  constructor
  · intro htex
    simp [processTriInput, hsem, htex]
  · intro htex
    simp [processTriInput, hsem, htex]

/-- Witness for C10 at a state that already honored a texcoord set. -/
theorem secondTexcoordIgnored_witness :
    processTriInput c10Env c10St ⟨"TEXCOORD", "s", 5⟩ =
      { c10St with
        inputs := alistInsert c10St.inputs c10St.otherSemantics 5
        otherSemantics := c10St.otherSemantics + 1
        offsetSize := c10St.offsetSize + 1
        warnings := c10St.warnings ++ [unsupportedWarnTri "TEXCOORD"] } :=
  (secondTexcoordIgnored c10Env c10St ⟨"TEXCOORD", "s", 5⟩ rfl).1 rfl

/-- C1 counterexample: in the triangles weaver, after the corner with
position index zero and normal index one is processed, the vertexIndexMap
entry for position zero holds only the record of that latest corner; the
record stored at the first occurrence of position zero, visible after the
first three corners, is gone. -/
theorem firstEntryRetention_counterexample :
    alistLookup (weaveTriangles c1Cfg 2 [0, 0, 1, 0, 2, 0]).vertexIndexMap 0 =
      some [{ vertexIndex := 0, mappedIndex := 0, normalIndex := 0, texcoordIndex := 0 }] ∧
    alistLookup (weaveTriangles c1Cfg 2 [0, 0, 1, 0, 2, 0, 0, 1]).vertexIndexMap 0 =
      some [{ vertexIndex := 0, mappedIndex := 3, normalIndex := 1, texcoordIndex := 0 }] ∧
    some [({ vertexIndex := 0, mappedIndex := 3, normalIndex := 1, texcoordIndex := 0 } :
        GeometryIndices)] ≠
      some [({ vertexIndex := 0, mappedIndex := 0, normalIndex := 0, texcoordIndex := 0 } :
        GeometryIndices)] :=
  ⟨by decide, by decide, by decide⟩

/-- C1 amended: in both weavers, when the remapped position index p is
already present in vertexIndexMap and no stored entry matches the corner,
the new output vertex is emitted and vertexIndexMap at p is overwritten with
the one-element vector holding the new record; only the most recent
occurrence for a given p is retained. -/
theorem vertexMapOverwritten {P N T : Type} [Inhabited P] [Inhabited N]
    [Inhabited T] (cfg : WeaveCfg P N T) (st : WeaveState P N T)
    (values : List Nat) (p : Nat) (ivs : List GeometryIndices)
    (hv : cfg.hasVertices = true)
    (hp : p = remap cfg.positionDup (values.getD cfg.offVertex 0))
    (hlook : alistLookup st.vertexIndexMap p = some ivs)
    (hre : findReuse cfg values ivs = none) :
    alistLookup (weaveCornerTri cfg st values).vertexIndexMap p =
      some [cornerInput cfg st p values] ∧
    alistLookup (weaveCornerPoly cfg st values).vertexIndexMap p =
      some [cornerInput cfg st p values] := by
  subst hp
  constructor
  · simp only [weaveCornerTri, addCornerTri, hv, if_true, hlook, hre]
    exact alistLookup_insert _ _ _
  · simp only [weaveCornerPoly, addCornerPoly, hv, if_true, hlook, hre]
    exact alistLookup_insert _ _ _

/-- Witness for C1 at the fourth corner of the counterexample scenario. -/
theorem vertexMapOverwritten_witness :
    alistLookup (weaveCornerTri c1Cfg
        (weaveTriangles c1Cfg 2 [0, 0, 1, 0, 2, 0]) [0, 1]).vertexIndexMap 0 =
      some [cornerInput c1Cfg (weaveTriangles c1Cfg 2 [0, 0, 1, 0, 2, 0]) 0 [0, 1]] ∧
    alistLookup (weaveCornerPoly c1Cfg
        (weaveTriangles c1Cfg 2 [0, 0, 1, 0, 2, 0]) [0, 1]).vertexIndexMap 0 =
      some [cornerInput c1Cfg (weaveTriangles c1Cfg 2 [0, 0, 1, 0, 2, 0]) 0 [0, 1]] :=
  vertexMapOverwritten c1Cfg (weaveTriangles c1Cfg 2 [0, 0, 1, 0, 2, 0]) [0, 1] 0
    [{ vertexIndex := 0, mappedIndex := 0, normalIndex := 0, texcoordIndex := 0 }]
    (by decide) (by decide) (by decide) (by decide)

theorem polyStartsGo_closed :
    ∀ (w : Nat) (vcounts : List Nat) (base : Nat),
      polyCornerStartsGo w vcounts base =
        (List.range vcounts.length).flatMap (fun l =>
          triFanStarts w (vcounts.getD l 0) (base + w * (vcounts.take l).sum)) := by
  intro w vcounts
  induction vcounts with
  | nil => intro base; simp [polyCornerStartsGo]
  | cons n rest ih =>
      intro base
      rw [polyCornerStartsGo, ih]
      rw [List.length_cons, List.range_succ_eq_map, List.flatMap_cons, List.flatMap_map]
      refine congrArg₂ HAppend.hAppend ?_ ?_
      · simp
      · refine List.flatMap_congr (fun l _ => ?_)
        simp only [List.getD_cons_succ, List.take_succ_cons, List.sum_cons]
        have harith : base + w * n + w * (rest.take l).sum =
            base + w * (n + (rest.take l).sum) := by ring
        rw [harith]

/-- C4: the polylist weaver fan-triangulates every polygon around its first
corner: the corner positions read for the polygons are, polygon by polygon
at the cumulative base offsets, the fan sequence with corners zero, k minus
one and k for k from two below the vertex count; and a quad polylist with
position indices zero to three and no other inputs emits the index stream
0, 1, 2, 0, 2, 3. -/
theorem polylistFanTriangulation :
    (∀ (w : Nat) (vcounts : List Nat),
      polyCornerStarts w vcounts =
        (List.range vcounts.length).flatMap (fun l =>
          triFanStarts w (vcounts.getD l 0) (w * (vcounts.take l).sum))) ∧
    (∀ (w n : Nat) (p : List Nat),
      (polyCornerStarts w [n]).map (cornerAt w p) =
        ((List.range n).drop 2).flatMap (fun k =>
          [cornerAt w p 0, cornerAt w p ((k - 1) * w), cornerAt w p (k * w)])) ∧
    (weavePolylist quadCfg 1 [4] [0, 1, 2, 3]).indices = [0, 1, 2, 0, 2, 3] := by
  refine ⟨?_, ?_, by decide⟩
  · intro w vcounts
    rw [polyCornerStarts, polyStartsGo_closed]
    simp
  · intro w n p
    rw [polyCornerStarts, polyCornerStartsGo, polyCornerStartsGo]
    rw [triFanStarts, List.append_nil, List.map_flatMap]
    refine List.flatMap_congr (fun k _ => ?_)
    simp

/-- C6 counterexample: the zero input normal reaches the sub-mesh unchanged
under the identity transform, and its length is zero, not within 1e-6 of
one; Normalize leaves a vector whose length is inside the zero tolerance
untouched. -/
theorem normalUnitLength_counterexample :
    (weaveTriangles c6Cfg 2 [0, 0]).normals = [loadNormalOne m4idR ⟨0, 0, 0⟩] ∧
    loadNormalOne m4idR ⟨0, 0, 0⟩ = ⟨0, 0, 0⟩ ∧
    vlen (⟨0, 0, 0⟩ : Vec3R) = 0 ∧
    ¬ (|vlen (⟨0, 0, 0⟩ : Vec3R) - 1| ≤ 1 / 1000000) := by
  have hv0 : vlen (⟨0, 0, 0⟩ : Vec3R) = 0 := by simp [vlen]
  refine ⟨rfl, ?_, hv0, ?_⟩
  · have hw : m4applyR (m4zeroTranslate m4idR) ⟨0, 0, 0⟩ = ⟨0, 0, 0⟩ := by
      simp [m4applyR, m4zeroTranslate, m4idR]
    rw [loadNormalOne, hw]
    simp only [vnormalize]
    rw [if_pos (by rw [hv0]; norm_num)]
  · rw [hv0, zero_sub, abs_neg, abs_one]
    norm_num

/-- C6 amended: every normal parsed by the normal loader is the input tuple
transformed by the node transform with zeroed translation and then
normalized; whenever the transformed vector has length above the 1e-6
normalization tolerance, the stored normal has length exactly one. -/
theorem normalUnitLength (t : Mat4R) (v : Vec3R)
    (h : 1 / 1000000 < vlen (m4applyR (m4zeroTranslate t) v)) :
    loadNormalOne t v = vnormalize (m4applyR (m4zeroTranslate t) v) ∧
    vlen (loadNormalOne t v) = 1 := by
  refine ⟨rfl, ?_⟩
  rw [loadNormalOne]
  set w := m4applyR (m4zeroTranslate t) v with hw
  have hd : (0 : ℝ) < vlen w := lt_trans (by norm_num) h
  have hne : vlen w ≠ 0 := ne_of_gt hd
  have hnle : ¬ vlen w ≤ 1 / 1000000 := not_le.mpr h
  have hq0 : (0 : ℝ) ≤ w.x * w.x + w.y * w.y + w.z * w.z :=
    add_nonneg (add_nonneg (mul_self_nonneg _) (mul_self_nonneg _)) (mul_self_nonneg _)
  have hdd : vlen w * vlen w = w.x * w.x + w.y * w.y + w.z * w.z :=
    Real.mul_self_sqrt hq0
  simp only [vnormalize]
  rw [if_neg hnle]
  have hfrac : w.x / vlen w * (w.x / vlen w) + w.y / vlen w * (w.y / vlen w) +
      w.z / vlen w * (w.z / vlen w) = 1 := by
    field_simp
    linarith [hdd]
  have houter : vlen { x := w.x / vlen w, y := w.y / vlen w, z := w.z / vlen w } =
      Real.sqrt (w.x / vlen w * (w.x / vlen w) + w.y / vlen w * (w.y / vlen w) +
        w.z / vlen w * (w.z / vlen w)) := rfl
  rw [houter, hfrac, Real.sqrt_one]

/-- Witness for C6 at the input normal of length three under the identity
transform. -/
theorem normalUnitLength_witness :
    vlen (loadNormalOne m4idR ⟨3, 0, 0⟩) = 1 := by
  have hw : m4applyR (m4zeroTranslate m4idR) ⟨3, 0, 0⟩ = ⟨3, 0, 0⟩ := by
    simp [m4applyR, m4zeroTranslate, m4idR]
  have hv3 : vlen (⟨3, 0, 0⟩ : Vec3R) = 3 := by
    simp only [vlen]
    rw [show (3 : ℝ) * 3 + 0 * 0 + 0 * 0 = 3 ^ 2 by norm_num]
    exact Real.sqrt_sq (by norm_num)
  exact (normalUnitLength m4idR ⟨3, 0, 0⟩ (by rw [hw, hv3]; norm_num)).2

end Collada
